import Mathlib

/-!
Verification development for scripts/export_maven_prs.py.

The script enumerates open pull requests of Apache Maven repositories via
the gh CLI, reduces per-PR check-run data to one aggregate status, writes
CSV or AsciiDoc reports, and prunes archived repositories from a YAML file.

Shallow embedding conventions used below:
  - JSON records become Lean structures; a field read with dict.get and a
    default is an Option field (none models an absent key).
  - Subprocess calls are modelled by a RunResult value describing how the
    call ended; Python exceptions that escape a function are modelled by
    the PyResult.raised constructor carrying the exception class name.
  - Python in-place list.sort is modelled by returning the final state of
    the caller list next to the produced text.  Python list.sort and
    sorted are stable sorts, so they are embedded as List.insertionSort
    (also stable) over the same ordering.
  - Python string comparison is code-point lexicographic; ltCore below
    implements exactly that on the character lists of the strings.
  - File contents are lists of lines (the script itself works line-wise
    via splitlines); remove_repo_from_yaml returns none when the file is
    left untouched (the Python function returns False and skips the
    write) and some newLines when it rewrites the file.
-/

/-- Embedding of one element of the statusCheckRollup JSON array.  The
Python code reads context.get(state, context.get(conclusion, UNKNOWN))
and never reads any other field; targetUrl is carried to state frame
facts about it. -/
structure CheckContext where
  state : Option String
  conclusion : Option String
  targetUrl : Option String
deriving DecidableEq

/-- Embedding of one pull-request JSON record as used by the script.
author is the author.login field; labels is the list of label name
fields; repoName is the repository name injected by get_prs_for_repo. -/
structure PullRequest where
  number : Nat
  title : String
  author : String
  createdAt : String
  updatedAt : String
  url : String
  isDraft : Option Bool
  labels : Option (List String)
  statusCheckRollup : Option (List CheckContext)
  repoName : String
deriving DecidableEq

/-- Code-point lexicographic order on character lists, the comparison
Python uses for strings. -/
def ltCore : List Char → List Char → Bool
  | [], [] => false
  | [], _ :: _ => true
  | _ :: _, [] => false
  | a :: as, b :: bs => if a < b then true else if b < a then false else ltCore as bs

/-- Python string less-than. -/
def pyStrLt (a b : String) : Bool :=
  ltCore a.data b.data

/-- Resolution of the state token of one check-run record, mirroring
context.get(state, context.get(conclusion, UNKNOWN)). -/
def contextState (c : CheckContext) : String :=
  match c.state with
  | some s => s
  | none =>
    match c.conclusion with
    | some s => s
    | none => "UNKNOWN"

/-- Membership test for the failure bucket, mirroring the Python
expression context_state in [FAILURE, FAILED, ERROR]. -/
def isFailureState (s : String) : Bool :=
  s == "FAILURE" || s == "FAILED" || s == "ERROR"

/-- Membership test for the pending bucket. -/
def isPendingState (s : String) : Bool :=
  s == "PENDING" || s == "IN_PROGRESS" || s == "WAITING" || s == "QUEUED"

/-- Membership test for the success bucket. -/
def isSuccessState (s : String) : Bool :=
  s == "SUCCESS" || s == "SUCCESSFUL" || s == "COMPLETED"

/-- One iteration of the flag-accumulating loop of get_build_status:
the if/elif/elif chain over one context record. -/
def bucketStep (acc : Bool × Bool × Bool) (c : CheckContext) : Bool × Bool × Bool :=
  let s := contextState c
  if isFailureState s then (true, acc.2.1, acc.2.2)
  else if isPendingState s then (acc.1, true, acc.2.2)
  else if isSuccessState s then (acc.1, acc.2.1, true)
  else acc

/-- The loop of get_build_status accumulating (has_failure, has_pending,
has_success), all initially false. -/
def bucketFold (rollup : List CheckContext) : Bool × Bool × Bool :=
  rollup.foldl bucketStep (false, false, false)

/-- Checks-page URL synthesized by get_build_status from the repository
name and the PR number. -/
def checksUrl (pr : PullRequest) : String :=
  "https://github.com/apache/" ++ pr.repoName ++ "/pull/" ++ toString pr.number ++ "/checks"

/-- State component of get_build_status: the early return on a missing or
empty rollup (the Python falsiness test on the rollup value), then the
three accumulated flags with failure/pending/success precedence. -/
def statusFromRollup : Option (List CheckContext) → String
  | none => "UNKNOWN"
  | some rollup =>
    if rollup.isEmpty then "UNKNOWN"
    else
      let flags := bucketFold rollup
      if flags.1 then "FAILURE"
      else if flags.2.1 then "PENDING"
      else if flags.2.2 then "SUCCESS"
      else "UNKNOWN"

/-- Embedding of get_build_status.  The Python function synthesizes the
checks-page URL up front and returns it in every branch; the state
component depends only on the statusCheckRollup value. -/
def get_build_status (pr : PullRequest) : String × String :=
  (statusFromRollup pr.statusCheckRollup, checksUrl pr)

/-- Definition written from the words of the specification (for claim C1):
bucket the state strings, then decide with precedence
failure over pending over success over UNKNOWN, with UNKNOWN also for an
absent or empty list. -/
def specAggregateStatus : Option (List String) → String
  | none => "UNKNOWN"
  | some states =>
    if states.any isFailureState then "FAILURE"
    else if states.any isPendingState then "PENDING"
    else if states.any isSuccessState then "SUCCESS"
    else "UNKNOWN"

/-- Rewrites every targetUrl of every check-run record of a pull request,
leaving every other field unchanged.  Used to state that the reducer
ignores per-check target URLs. -/
def setTargetUrls (f : Option String → Option String) (pr : PullRequest) : PullRequest :=
  { pr with statusCheckRollup :=
      pr.statusCheckRollup.map (fun l => l.map (fun c => { c with targetUrl := f c.targetUrl })) }

/-- Ways a subprocess.run call with check=True can end: captured stdout on
exit code zero, a CalledProcessError on a non-zero exit, or a
FileNotFoundError when the binary is missing. -/
inductive RunResult where
  | success (stdout : String)
  | calledProcessError
  | fileNotFound
deriving DecidableEq

/-- Outcome of a Python function call: a returned value or an uncaught
exception identified by its class name. -/
inductive PyResult (α : Type) where
  | ok (val : α)
  | raised (exn : String)
deriving DecidableEq

/-- Embedding of get_prs_for_repo.  The try block wraps subprocess.run and
json.loads; only subprocess.CalledProcessError is caught (yielding an
empty list); a missing binary and a JSON decode error escape.  parseJson
models json.loads on stdout, none meaning a json.JSONDecodeError. -/
def get_prs_for_repo (repo : String) (run : RunResult)
    (parseJson : String → Option (List PullRequest)) : PyResult (List PullRequest) :=
  match run with
  | .success out =>
    match parseJson out with
    | some prs => .ok (prs.map (fun pr => { pr with repoName := repo }))
    | none => .raised "json.JSONDecodeError"
  | .calledProcessError => .ok []
  | .fileNotFound => .raised "FileNotFoundError"

/-- Embedding of gh_check_repo_archived.  All three failure modes
(missing binary, non-zero exit, JSON decode error) are caught and
downgraded to False; parseArchived models json.loads followed by
bool(data.get(archived, False)), none meaning a json.JSONDecodeError. -/
def gh_check_repo_archived (run : RunResult)
    (parseArchived : String → Option Bool) : Bool :=
  match run with
  | .success out =>
    match parseArchived out with
    | some b => b
    | none => false
  | .calledProcessError => false
  | .fileNotFound => false

/-- Sort key comparison of export_to_csv: the Python tuple key
(repository name, number) under ascending tuple order. -/
def keyLe (a b : PullRequest) : Bool :=
  pyStrLt a.repoName b.repoName || (a.repoName == b.repoName && Nat.ble a.number b.number)

/-- Propositional form of keyLe, for List.insertionSort. -/
def keyRel (a b : PullRequest) : Prop :=
  keyLe a b = true

instance : DecidableRel keyRel :=
  fun a b => Bool.decEq (keyLe a b) true

/-- Embedding of prs.sort(key=(repository name, number)): a stable sort by
the tuple key. -/
def sortPRs (prs : List PullRequest) : List PullRequest :=
  List.insertionSort keyRel prs

/-- Header row written by export_to_csv. -/
def csvHeader : List String :=
  ["Repository", "PR Number", "Title", "Author", "Created", "Updated",
   "Draft", "Build Status", "Build URL", "Labels", "PR URL"]

/-- Data row written by export_to_csv for one pull request: dates cut to
their 10-character date part, the draft flag as Yes/No, labels joined
with a comma and a space, the reduced status and checks URL. -/
def dataRow (pr : PullRequest) : List String :=
  [pr.repoName,
   toString pr.number,
   pr.title,
   pr.author,
   pr.createdAt.take 10,
   pr.updatedAt.take 10,
   if pr.isDraft.getD false then "Yes" else "No",
   (get_build_status pr).1,
   (get_build_status pr).2,
   String.intercalate ", " (pr.labels.getD []),
   pr.url]

/-- All rows handed to csv.writer: the header then one data row per pull
request in sorted order. -/
def csvRows (prs : List PullRequest) : List (List String) :=
  csvHeader :: (sortPRs prs).map dataRow

/-- Characters that force quoting under the csv excel dialect with
QUOTE_MINIMAL: the delimiter, the quote character and the two line
terminator characters. -/
def isCsvSpecial (c : Char) : Bool :=
  c = ',' || c = '"' || c = '\r' || c = '\n'

/-- Doubling of quote characters inside a quoted csv field. -/
def escapeQuotes : List Char → List Char
  | [] => []
  | c :: cs => if c = '"' then '"' :: '"' :: escapeQuotes cs else c :: escapeQuotes cs

/-- Rendering of one csv field under QUOTE_MINIMAL: quoted with doubled
inner quotes when the field holds a special character, verbatim
otherwise. -/
def renderField (f : String) : List Char :=
  if f.data.any isCsvSpecial then '"' :: (escapeQuotes f.data ++ ['"']) else f.data

/-- Comma-joined rendering of the fields of one row. -/
def renderFields : List String → List Char
  | [] => []
  | [f] => renderField f
  | f :: fs => renderField f ++ ',' :: renderFields fs

/-- One rendered csv row including the CRLF terminator of the excel
dialect. -/
def renderRow (r : List String) : List Char :=
  renderFields r ++ ['\r', '\n']

/-- Rendering of a whole csv document. -/
def renderRows (rows : List (List String)) : List Char :=
  (rows.map renderRow).flatten

/-- Embedding of export_to_csv.  First component: the text written to the
file.  Second component: the final state of the caller list, which the
Python function sorts in place before writing. -/
def export_to_csv (prs : List PullRequest) : String × List PullRequest :=
  (String.mk (renderRows (csvRows prs)), sortPRs prs)

/-- Parser state step inside a quoted csv field: a doubled quote is one
literal quote, a single quote closes the field. -/
def parseQuoted (acc : List Char) : List Char → List Char × List Char
  | [] => (acc.reverse, [])
  | c :: rest =>
    if c = '"' then
      match rest with
      | c2 :: rest2 => if c2 = '"' then parseQuoted ('"' :: acc) rest2 else (acc.reverse, rest)
      | [] => (acc.reverse, [])
    else parseQuoted (c :: acc) rest

/-- Parser step inside an unquoted csv field: the field ends before a
delimiter or a line-terminator character. -/
def parseUnquoted (acc : List Char) : List Char → List Char × List Char
  | [] => (acc.reverse, [])
  | c :: rest =>
    if c = ',' || c = '\r' || c = '\n' then (acc.reverse, c :: rest)
    else parseUnquoted (c :: acc) rest

/-- Parse of one csv field, quoted or not. -/
def parseField (cs : List Char) : List Char × List Char :=
  match cs with
  | [] => ([], [])
  | c :: rest => if c = '"' then parseQuoted [] rest else parseUnquoted [] cs

/-- Parse of one csv row given fuel bounding the number of fields; the
returned remainder starts after the CRLF terminator of the row. -/
def parseRowFuel : Nat → List Char → List (List Char) × List Char
  | 0, cs => ([], cs)
  | n + 1, cs =>
    match parseField cs with
    | (f, rest) =>
      match rest with
      | ',' :: rest2 =>
        let p := parseRowFuel n rest2
        (f :: p.1, p.2)
      | '\r' :: '\n' :: rest2 => ([f], rest2)
      | _ => ([f], [])

/-- Parse of a csv document given fuel bounding the number of rows. -/
def parseRowsFuel : Nat → List Char → List (List (List Char))
  | 0, _ => []
  | n + 1, cs =>
    if cs.isEmpty then []
    else
      let p := parseRowFuel (n + 1) cs
      p.1 :: parseRowsFuel n p.2

/-- Standard csv parse of a document under the excel dialect, used to
state the round-trip property of the csv serializer. -/
def csvParse (s : String) : List (List String) :=
  (parseRowsFuel (s.data.length + 1) s.data).map (fun r => r.map String.mk)

/-- Insertion of one pull request into the repository grouping dict of
export_to_asciidoc.  Python dicts keep first-insertion key order and the
code appends each record at the end of the list of its repository. -/
def insertPR (groups : List (String × List PullRequest)) (pr : PullRequest) :
    List (String × List PullRequest) :=
  match groups with
  | [] => [(pr.repoName, [pr])]
  | (n, ps) :: rest =>
    if n = pr.repoName then (n, ps ++ [pr]) :: rest
    else (n, ps) :: insertPR rest pr

/-- The grouping dict built by the first loop of export_to_asciidoc. -/
def groupByRepo (prs : List PullRequest) : List (String × List PullRequest) :=
  prs.foldl insertPR []

/-- Comparison used by sorted(repos.items()): tuple order, which on the
distinct dict keys reduces to the repository-name order. -/
def groupLe (g1 g2 : String × List PullRequest) : Bool :=
  pyStrLt g1.1 g2.1 || g1.1 == g2.1

/-- Propositional form of groupLe, for List.insertionSort. -/
def groupRel (g1 g2 : String × List PullRequest) : Prop :=
  groupLe g1 g2 = true

instance : DecidableRel groupRel :=
  fun a b => Bool.decEq (groupLe a b) true

/-- Ordering of repo_prs.sort(key=createdAt, reverse=True): a stable sort
where a record may precede another exactly when its creation timestamp is
not smaller. -/
def dateDescLe (a b : PullRequest) : Bool :=
  !(pyStrLt a.createdAt b.createdAt)

/-- Propositional form of dateDescLe, for List.insertionSort. -/
def dateRel (a b : PullRequest) : Prop :=
  dateDescLe a b = true

instance : DecidableRel dateRel :=
  fun a b => Bool.decEq (dateDescLe a b) true

/-- Stable sort by creation timestamp, newest first. -/
def sortByDateDesc (prs : List PullRequest) : List PullRequest :=
  List.insertionSort dateRel prs

/-- The group sequence export_to_asciidoc iterates over: groups sorted by
repository name, each group list sorted by creation timestamp
descending. -/
def asciidocGroups (prs : List PullRequest) : List (String × List PullRequest) :=
  (List.insertionSort groupRel (groupByRepo prs)).map (fun g => (g.1, sortByDateDesc g.2))

/-- Status cell of one AsciiDoc row: the status hyperlinked to the build
URL when that URL is a non-empty string. -/
def adocStatusText (pr : PullRequest) : String :=
  let bs := get_build_status pr
  if bs.2.isEmpty then bs.1 else bs.2 ++ "[" ++ bs.1 ++ "]"

/-- One 4-column AsciiDoc row for one pull request. -/
def adocPrRow (pr : PullRequest) : String :=
  "| " ++ pr.title ++ "\n| " ++ pr.createdAt ++ "\n| " ++ adocStatusText pr
    ++ "\n| " ++ pr.url ++ "[" ++ toString pr.number ++ "]\n"

/-- One repository block: the full-width header row linking the
pull-request listing of the repository, the rows of the group, and the
blank separator line. -/
def adocGroupBlock (g : String × List PullRequest) : String :=
  "4+| *https://github.com/apache/" ++ g.1 ++ "/pulls[" ++ g.1 ++ "]*\n"
    ++ String.join (g.2.map adocPrRow) ++ "\n"

/-- Whole AsciiDoc document for a given title, timestamp text and group
sequence. -/
def adocDoc (title now : String) (groups : List (String × List PullRequest)) : String :=
  "= " ++ title ++ "\n\n"
    ++ "The following Apache Maven projects have open Pull-Requests as of " ++ now ++ ".\n\n"
    ++ "[cols=\"8,3,2,1\", options=\"header\"]\n|===\n| Title | Date | Build Status | Id\n\n"
    ++ String.join (groups.map adocGroupBlock) ++ "|===\n"

/-- Embedding of export_to_asciidoc.  First component: the text written.
Second component: the final state of the caller list; the function sorts
only the per-repository lists freshly built by the grouping loop, so the
caller list object is left as given. -/
def export_to_asciidoc (prs : List PullRequest) (title now : String) :
    String × List PullRequest :=
  (adocDoc title now (asciidocGroups prs), prs)

/-- Python regular-expression whitespace class, ASCII part. -/
def pyIsSpace (c : Char) : Bool :=
  c = ' ' || c = '\t' || c = '\n' || c = '\r' || c = '\x0b' || c = '\x0c'

/-- Python regular-expression word-character class, ASCII part; the
repository names and boundary characters of this script are ASCII. -/
def isWordChar (c : Char) : Bool :=
  c.isAlpha || c.isDigit || c = '_'

/-- Case-insensitive literal match consuming the pattern from the front
of the input, returning the unconsumed remainder on success. -/
def matchLiteralCI : List Char → List Char → Option (List Char)
  | [], rest => some rest
  | _ :: _, [] => none
  | p :: ps, c :: cs => if p.toLower = c.toLower then matchLiteralCI ps cs else none

/-- Semantics of a trailing dot-star-dollar without MULTILINE: the
remainder may hold no newline except one final newline. -/
def dotStarEnd : List Char → Bool
  | [] => true
  | c :: cs => if c = '\n' then cs.isEmpty else dotStarEnd cs

/-- The literal heart of the removal pattern for a repository name. -/
def yamlPattern (repo : String) : List Char :=
  ("github:repository::https://github.com/apache/" ++ repo).data

/-- Embedding of pattern.match(ln) for the removal regular expression:
leading whitespace, one or more dashes, whitespace, the case-insensitive
literal github:repository::https://github.com/apache/ followed by the
repository name, a word boundary, then anything to the end of line.  The
character classes of the consecutive pieces are disjoint, so the greedy
left-to-right reading below is exactly the regex semantics. -/
def lineMatches (repo : String) (ln : String) : Bool :=
  let cs := ln.data.dropWhile pyIsSpace
  match cs with
  | [] => false
  | c :: _ =>
    if c = '-' then
      let cs2 := (cs.dropWhile (fun d => d = '-')).dropWhile pyIsSpace
      match matchLiteralCI (yamlPattern repo) cs2 with
      | some rest =>
        let prevWord := isWordChar ((yamlPattern repo).getLastD '/')
        let nextWord :=
          match rest with
          | [] => false
          | d :: _ => isWordChar d
        (prevWord != nextWord) && dotStarEnd rest
      | none => false
    else false

/-- Embedding of remove_repo_from_yaml on the lines of an existing file:
none models the no-write path returning False, some models the rewrite
with the kept lines (joined with newlines by the Python code). -/
def remove_repo_from_yaml (repo : String) (lines : List String) : Option (List String) :=
  let kept := lines.filter (fun ln => !lineMatches repo ln)
  if kept.length = lines.length then none else some kept

/-- Application of one YAML removal to a file state, keeping the old
lines when nothing matched. -/
def applyRemoval (lines : List String) (repo : String) : List String :=
  match remove_repo_from_yaml repo lines with
  | some newLines => newLines
  | none => lines

/-- Embedding of filter_and_cleanup_archived: partition the repository
list by the archived check (in order, appending), then delete each
archived repository from the YAML lines.  Returns the remaining
repository list and the final YAML lines.  env gives the outcome of the
gh repo view call per repository; parseArchived is as in
gh_check_repo_archived. -/
def filter_and_cleanup_archived (env : String → RunResult)
    (parseArchived : String → Option Bool) (repos : List String)
    (yaml : List String) : List String × List String :=
  let part := repos.foldl
    (fun (acc : List String × List String) repo =>
      if gh_check_repo_archived (env repo) parseArchived then (acc.1 ++ [repo], acc.2)
      else (acc.1, acc.2 ++ [repo]))
    ([], [])
  (part.2, part.1.foldl applyRemoval yaml)

/-- The static repository list of the script (relevant here: it holds
both maven-site and maven-site-plugin, names where one is a proper
hyphen-extended prefix of the other). -/
def MAVEN_REPOS : List String :=
  ["maven-site", "maven-sources", "maven-build-cache-extension", "maven",
   "maven-mvnd", "maven-integration-testing", "maven-resolver",
   "maven-resolver-ant-tasks", "maven-wrapper", "maven-clean-plugin",
   "maven-compiler-plugin", "maven-deploy-plugin", "maven-install-plugin",
   "maven-resources-plugin", "maven-site-plugin", "maven-surefire",
   "maven-verifier-plugin", "maven-ear-plugin", "maven-ejb-plugin",
   "maven-jar-plugin", "maven-rar-plugin", "maven-war-plugin",
   "maven-acr-plugin", "maven-shade-plugin", "maven-source-plugin",
   "maven-jlink-plugin", "maven-jmod-plugin", "maven-changelog-plugin",
   "maven-changes-plugin", "maven-checkstyle-plugin", "maven-doap-plugin",
   "maven-javadoc-plugin", "maven-jdeps-plugin", "maven-jxr",
   "maven-pmd-plugin", "maven-project-info-reports-plugin",
   "maven-antrun-plugin", "maven-archetype", "maven-artifact-plugin",
   "maven-assembly-plugin", "maven-dependency-plugin", "maven-enforcer",
   "maven-gpg-plugin", "maven-help-plugin", "maven-invoker-plugin",
   "maven-jarsigner-plugin", "maven-jdeprscan-plugin", "maven-plugin-tools",
   "maven-release", "maven-remote-resources-plugin", "maven-scm",
   "maven-scm-publish-plugin", "maven-scripting-plugin", "maven-stage-plugin",
   "maven-toolchains-plugin", "maven-archiver", "maven-artifact-transfer",
   "maven-common-artifact-filters", "maven-dependency-analyzer",
   "maven-dependency-tree", "maven-file-management", "maven-filtering",
   "maven-invoker", "maven-jarsigner", "maven-mapping", "maven-project-utils",
   "maven-reporting-api", "maven-reporting-exec", "maven-reporting-impl",
   "maven-script-interpreter", "maven-shared-incremental", "maven-shared-io",
   "maven-shared-jar", "maven-shared-resources", "maven-shared-utils",
   "maven-verifier", "maven-doxia", "maven-doxia-site", "maven-doxia-sitetools",
   "maven-doxia-book-maven-plugin", "maven-doxia-book-renderer",
   "maven-doxia-converter", "maven-doxia-linkcheck", "maven-archetypes",
   "maven-parent", "maven-apache-parent", "maven-apache-resources",
   "maven-fluido-skin", "maven-dist-tool", "maven-gh-actions-shared",
   "maven-jenkins-env", "maven-jenkins-lib", "maven-indexer",
   "maven-plugin-testing", "maven-wagon", "maven-studies",
   "maven-repository-tools", "maven-doxia-ide"]

/-- Small concrete pull request for counterexamples and witnesses. -/
def samplePR (repo : String) (n : Nat) (created : String) : PullRequest :=
  { number := n, title := "a title", author := "someone", createdAt := created,
    updatedAt := created, url := "https://example.org/pr", isDraft := none,
    labels := none, statusCheckRollup := none, repoName := repo }

theorem ltCore_irrefl (as : List Char) : ltCore as as = false := by
  induction as with
  | nil => rfl
  | cons a as ih => simp [ltCore, ih]

theorem ltCore_trans : ∀ as bs cs : List Char,
    ltCore as bs = true → ltCore bs cs = true → ltCore as cs = true := by
  intro as
  induction as with
  | nil =>
    intro bs cs h1 h2
    cases cs with
    | nil =>
      cases bs with
      | nil => simp [ltCore] at h1
      | cons b bs => simp [ltCore] at h2
    | cons c cs => simp [ltCore]
  | cons a as ih =>
    intro bs cs h1 h2
    cases bs with
    | nil => simp [ltCore] at h1
    | cons b bs =>
      cases cs with
      | nil => simp [ltCore] at h2
      | cons c cs =>
        simp only [ltCore] at h1 h2 ⊢
        by_cases hab : a < b
        · by_cases hbc : b < c
          · simp [lt_trans hab hbc]
          · by_cases hcb : c < b
            · simp [hbc, hcb] at h2
            · have hbceq : b = c := le_antisymm (not_lt.mp hcb) (not_lt.mp hbc)
              subst hbceq
              simp [hab]
        · by_cases hba : b < a
          · simp [hab, hba] at h1
          · have habeq : a = b := le_antisymm (not_lt.mp hba) (not_lt.mp hab)
            subst habeq
            simp only [lt_irrefl, if_false] at h1
            by_cases hac : a < c
            · simp [hac]
            · by_cases hca : c < a
              · simp [hac, hca] at h2
              · rw [if_neg hac, if_neg hca] at h2
                simp [hac, hca, ih bs cs h1 h2]

theorem ltCore_eq_of_not_lt : ∀ as bs : List Char,
    ltCore as bs = false → ltCore bs as = false → as = bs := by
  intro as
  induction as with
  | nil =>
    intro bs h1 _
    cases bs with
    | nil => rfl
    | cons b bs => simp [ltCore] at h1
  | cons a as ih =>
    intro bs h1 h2
    cases bs with
    | nil => simp [ltCore] at h2
    | cons b bs =>
      simp only [ltCore] at h1 h2
      by_cases hab : a < b
      · simp [hab] at h1
      · by_cases hba : b < a
        · simp [hab, hba] at h2
        · have habeq : a = b := le_antisymm (not_lt.mp hba) (not_lt.mp hab)
          subst habeq
          simp only [lt_irrefl, if_false] at h1 h2
          exact congrArg (a :: ·) (ih bs h1 h2)

theorem ltCore_asymm {as bs : List Char} (h : ltCore as bs = true) :
    ltCore bs as = false := by
  by_contra hb
  have hb2 : ltCore bs as = true := by
    cases hx : ltCore bs as
    · exact absurd hx hb
    · rfl
  have := ltCore_trans as bs as h hb2
  rw [ltCore_irrefl] at this
  cases this

theorem isFailureState_cases {s : String} (h : isFailureState s = true) :
    s = "FAILURE" ∨ s = "FAILED" ∨ s = "ERROR" := by
  simpa [isFailureState, Bool.or_eq_true, beq_iff_eq, or_assoc] using h

theorem isPendingState_cases {s : String} (h : isPendingState s = true) :
    s = "PENDING" ∨ s = "IN_PROGRESS" ∨ s = "WAITING" ∨ s = "QUEUED" := by
  simpa [isPendingState, Bool.or_eq_true, beq_iff_eq, or_assoc] using h

theorem failure_not_pending {s : String} (h : isFailureState s = true) :
    isPendingState s = false := by
  rcases isFailureState_cases h with h1 | h1 | h1 <;> subst h1 <;> decide

theorem failure_not_success {s : String} (h : isFailureState s = true) :
    isSuccessState s = false := by
  rcases isFailureState_cases h with h1 | h1 | h1 <;> subst h1 <;> decide

theorem pending_not_success {s : String} (h : isPendingState s = true) :
    isSuccessState s = false := by
  rcases isPendingState_cases h with h1 | h1 | h1 | h1 <;> subst h1 <;> decide

theorem bucketFold_step_spec (l : List CheckContext) :
    ∀ acc : Bool × Bool × Bool,
    l.foldl bucketStep acc =
      (acc.1 || l.any (fun c => isFailureState (contextState c)),
       acc.2.1 || l.any (fun c => isPendingState (contextState c)),
       acc.2.2 || l.any (fun c => isSuccessState (contextState c))) := by
  induction l with
  | nil => intro acc; simp
  | cons c l ih =>
    intro acc
    rw [List.foldl_cons, ih]
    simp only [List.any_cons]
    rcases acc with ⟨f, p, s⟩
    by_cases hF : isFailureState (contextState c) = true
    · simp [bucketStep, hF, failure_not_pending hF, failure_not_success hF]
    · by_cases hP : isPendingState (contextState c) = true
      · simp [bucketStep, hF, hP, pending_not_success hP]
      · by_cases hS : isSuccessState (contextState c) = true
        · simp [bucketStep, hF, hP, hS]
        · simp [bucketStep, hF, hP, hS,
            Bool.eq_false_iff.mpr hF, Bool.eq_false_iff.mpr hP, Bool.eq_false_iff.mpr hS]

theorem bucketFold_spec (l : List CheckContext) :
    bucketFold l =
      (l.any (fun c => isFailureState (contextState c)),
       l.any (fun c => isPendingState (contextState c)),
       l.any (fun c => isSuccessState (contextState c))) := by
  simpa using bucketFold_step_spec l (false, false, false)

theorem string_mk_data (s : String) : String.mk s.data = s := by
  cases s
  rfl

theorem pyStrLt_eq_of_not_lt {a b : String} (h1 : pyStrLt a b = false)
    (h2 : pyStrLt b a = false) : a = b :=
  String.ext (ltCore_eq_of_not_lt a.data b.data h1 h2)

theorem keyLe_total (a b : PullRequest) : keyLe a b = true ∨ keyLe b a = true := by
  unfold keyLe
  cases hab : pyStrLt a.repoName b.repoName
  · cases hba : pyStrLt b.repoName a.repoName
    · have heq : a.repoName = b.repoName := pyStrLt_eq_of_not_lt hab hba
      rcases Nat.le_total a.number b.number with hn | hn
      · left
        simp [heq, Nat.ble_eq, hn]
      · right
        simp [heq, Nat.ble_eq, hn]
    · right
      simp [hba]
  · left
    simp [hab]

theorem keyLe_trans (a b c : PullRequest) (h1 : keyLe a b = true)
    (h2 : keyLe b c = true) : keyLe a c = true := by
  unfold keyLe at h1 h2 ⊢
  simp only [Bool.or_eq_true, Bool.and_eq_true, beq_iff_eq, Nat.ble_eq] at h1 h2 ⊢
  rcases h1 with h1 | ⟨h1e, h1n⟩
  · rcases h2 with h2 | ⟨h2e, h2n⟩
    · exact Or.inl (ltCore_trans _ _ _ h1 h2)
    · left
      unfold pyStrLt at h1 ⊢
      rw [← h2e]
      exact h1
  · rcases h2 with h2 | ⟨h2e, h2n⟩
    · left
      unfold pyStrLt at h2 ⊢
      rw [h1e]
      exact h2
    · exact Or.inr ⟨h1e.trans h2e, le_trans h1n h2n⟩

theorem groupLe_total (a b : String × List PullRequest) :
    groupLe a b = true ∨ groupLe b a = true := by
  unfold groupLe
  cases hab : pyStrLt a.1 b.1
  · cases hba : pyStrLt b.1 a.1
    · have heq : a.1 = b.1 := pyStrLt_eq_of_not_lt hab hba
      left
      simp [heq]
    · right
      simp [hba]
  · left
    simp [hab]

theorem groupLe_trans (a b c : String × List PullRequest) (h1 : groupLe a b = true)
    (h2 : groupLe b c = true) : groupLe a c = true := by
  unfold groupLe at h1 h2 ⊢
  simp only [Bool.or_eq_true, beq_iff_eq] at h1 h2 ⊢
  rcases h1 with h1 | h1
  · rcases h2 with h2 | h2
    · exact Or.inl (ltCore_trans _ _ _ h1 h2)
    · left
      unfold pyStrLt at h1 ⊢
      rw [← h2]
      exact h1
  · rcases h2 with h2 | h2
    · left
      unfold pyStrLt at h2 ⊢
      rw [h1]
      exact h2
    · exact Or.inr (h1.trans h2)

theorem dateDescLe_total (a b : PullRequest) :
    dateDescLe a b = true ∨ dateDescLe b a = true := by
  unfold dateDescLe
  cases hab : pyStrLt a.createdAt b.createdAt
  · left
    simp
  · right
    have := ltCore_asymm hab
    simp [pyStrLt, this]

theorem dateDescLe_trans (a b c : PullRequest) (h1 : dateDescLe a b = true)
    (h2 : dateDescLe b c = true) : dateDescLe a c = true := by
  unfold dateDescLe at h1 h2 ⊢
  simp only [Bool.not_eq_true'] at h1 h2 ⊢
  cases hac : pyStrLt a.createdAt c.createdAt
  · rfl
  · exfalso
    cases hba : pyStrLt b.createdAt a.createdAt
    · have heq : b.createdAt = a.createdAt := pyStrLt_eq_of_not_lt hba h1
      rw [heq] at h2
      rw [h2] at hac
      cases hac
    · have hbc : pyStrLt b.createdAt c.createdAt = true :=
        ltCore_trans _ _ _ hba hac
      rw [h2] at hbc
      cases hbc

theorem parseQuoted_step_ne (acc : List Char) (c : Char) (X : List Char) (hc : ¬ c = '"') :
    parseQuoted acc (c :: X) = parseQuoted (c :: acc) X := by
  rw [parseQuoted.eq_def]
  simp [hc]

theorem parseQuoted_step_esc (acc : List Char) (X : List Char) :
    parseQuoted acc ('"' :: '"' :: X) = parseQuoted ('"' :: acc) X := by
  rw [parseQuoted.eq_def]
  simp

theorem parseQuoted_close (acc : List Char) (c2 : Char) (X : List Char) (hc : ¬ c2 = '"') :
    parseQuoted acc ('"' :: c2 :: X) = (acc.reverse, c2 :: X) := by
  rw [parseQuoted.eq_def]
  simp [hc]

theorem parseQuoted_close_nil (acc : List Char) :
    parseQuoted acc ['"'] = (acc.reverse, []) := by
  rw [parseQuoted.eq_def]
  simp

theorem parseUnquoted_step (acc : List Char) (c : Char) (X : List Char)
    (hc : (c = ',' || c = '\r' || c = '\n') = false) :
    parseUnquoted acc (c :: X) = parseUnquoted (c :: acc) X := by
  rw [parseUnquoted.eq_def]
  simp only [Bool.or_eq_false_iff, decide_eq_false_iff_not] at hc
  simp [hc.1.1, hc.1.2, hc.2]

theorem parseUnquoted_stop (acc : List Char) (c : Char) (X : List Char)
    (hc : (c = ',' || c = '\r' || c = '\n') = true) :
    parseUnquoted acc (c :: X) = (acc.reverse, c :: X) := by
  rw [parseUnquoted.eq_def]
  rcases Bool.or_eq_true _ _ |>.mp hc with h | h
  · rcases Bool.or_eq_true _ _ |>.mp h with h2 | h2 <;> simp [of_decide_eq_true h2]
  · simp [of_decide_eq_true h]

theorem parseQuoted_escape : ∀ (f acc rest : List Char),
    rest.head? ≠ some '"' →
    parseQuoted acc (escapeQuotes f ++ '"' :: rest) = (acc.reverse ++ f, rest) := by
  intro f
  induction f with
  | nil =>
    intro acc rest h
    cases rest with
    | nil => simp [escapeQuotes, parseQuoted_close_nil]
    | cons c2 rest2 =>
      have hc2 : ¬ c2 = '"' := by
        intro he
        exact h (by simp [he])
      simp [escapeQuotes, parseQuoted_close acc c2 rest2 hc2]
  | cons c f ih =>
    intro acc rest h
    by_cases hc : c = '"'
    · subst hc
      rw [show escapeQuotes ('"' :: f) = '"' :: '"' :: escapeQuotes f from by
        simp [escapeQuotes]]
      simp only [List.cons_append]
      rw [parseQuoted_step_esc acc (escapeQuotes f ++ '"' :: rest)]
      rw [ih ('"' :: acc) rest h]
      simp
    · rw [show escapeQuotes (c :: f) = c :: escapeQuotes f from by
        simp [escapeQuotes, hc]]
      simp only [List.cons_append]
      rw [parseQuoted_step_ne acc c (escapeQuotes f ++ '"' :: rest) hc]
      rw [ih (c :: acc) rest h]
      simp

theorem parseUnquoted_run : ∀ (f acc rest : List Char),
    (∀ c ∈ f, (c = ',' || c = '\r' || c = '\n') = false) →
    (∃ c cs, rest = c :: cs ∧ (c = ',' || c = '\r' || c = '\n') = true) →
    parseUnquoted acc (f ++ rest) = (acc.reverse ++ f, rest) := by
  intro f
  induction f with
  | nil =>
    intro acc rest _ hr
    rcases hr with ⟨c, cs, rfl, hstop⟩
    simp [parseUnquoted_stop acc c cs hstop]
  | cons c f ih =>
    intro acc rest hf hr
    have hc : (c = ',' || c = '\r' || c = '\n') = false := hf c (by simp)
    rw [List.cons_append]
    rw [parseUnquoted_step acc c (f ++ rest) hc]
    rw [ih (c :: acc) rest (fun d hd => hf d (by simp [hd])) hr]
    simp

theorem parseField_render (f : String) (rest : List Char)
    (hr : ∃ c cs, rest = c :: cs ∧ (c = ',' || c = '\r') = true) :
    parseField (renderField f ++ rest) = (f.data, rest) := by
  rcases hr with ⟨c, cs, rfl, hstop⟩
  have hcnq : ¬ c = '"' := by
    rcases Bool.or_eq_true _ _ |>.mp hstop with h | h
    · simp [of_decide_eq_true h]
    · simp [of_decide_eq_true h]
  by_cases hq : f.data.any isCsvSpecial = true
  · rw [show renderField f = '"' :: (escapeQuotes f.data ++ ['"']) from by
      simp [renderField, hq]]
    rw [show ('"' :: (escapeQuotes f.data ++ ['"'])) ++ c :: cs
          = '"' :: (escapeQuotes f.data ++ '"' :: (c :: cs)) from by simp]
    rw [show parseField ('"' :: (escapeQuotes f.data ++ '"' :: (c :: cs)))
          = parseQuoted [] (escapeQuotes f.data ++ '"' :: (c :: cs)) from by
      simp [parseField]]
    rw [parseQuoted_escape f.data [] (c :: cs) (by simp [hcnq])]
    simp
  · have hq2 : f.data.any isCsvSpecial = false := by
      cases hx : f.data.any isCsvSpecial
      · rfl
      · exact absurd hx hq
    have hnospec : ∀ d ∈ f.data, isCsvSpecial d = false := by
      intro d hd
      cases hx : isCsvSpecial d
      · rfl
      · exfalso
        exact (Bool.not_eq_true _).mpr hq2 (List.any_eq_true.mpr ⟨d, hd, hx⟩)
    rw [show renderField f = f.data from by simp [renderField, hq2]]
    have hstop3 : (c = ',' || c = '\r' || c = '\n') = true := by
      rcases Bool.or_eq_true _ _ |>.mp hstop with h | h <;> simp [h]
    cases hfd : f.data with
    | nil =>
      simp only [List.nil_append]
      rw [show parseField (c :: cs) = parseUnquoted [] (c :: cs) from by
        simp [parseField, hcnq]]
      simp [parseUnquoted_stop [] c cs hstop3]
    | cons d ds =>
      have hd : isCsvSpecial d = false := by
        apply hnospec
        rw [hfd]
        simp
      have hdnq : ¬ d = '"' := by
        intro he
        rw [he] at hd
        simp [isCsvSpecial] at hd
      rw [show parseField ((d :: ds) ++ c :: cs) = parseUnquoted [] ((d :: ds) ++ c :: cs) from by
        simp [parseField, hdnq]]
      rw [parseUnquoted_run (d :: ds) [] (c :: cs)
        (by
          intro e he
          have hes : isCsvSpecial e = false := by
            apply hnospec
            rw [hfd]
            exact he
          simp only [isCsvSpecial, Bool.or_eq_false_iff] at hes
          simp [hes.1.1.1, hes.1.2, hes.2])
        ⟨c, cs, rfl, hstop3⟩]
      simp

theorem parseRowFuel_render : ∀ (fields : List String) (n : Nat) (rest : List Char),
    fields ≠ [] → fields.length ≤ n →
    parseRowFuel n (renderFields fields ++ '\r' :: '\n' :: rest)
      = (fields.map String.data, rest) := by
  intro fields
  induction fields with
  | nil => intro n rest h _; exact absurd rfl h
  | cons f fs ih =>
    intro n rest _ hlen
    cases fs with
    | nil =>
      obtain ⟨m, rfl⟩ : ∃ m, n = m + 1 := by
        cases n
        · simp at hlen
        · exact ⟨_, rfl⟩
      rw [show renderFields [f] = renderField f from rfl]
      have hpf := parseField_render f ('\r' :: '\n' :: rest) ⟨'\r', '\n' :: rest, rfl, by simp⟩
      rw [parseRowFuel.eq_def]
      simp [hpf]
    | cons f2 fs2 =>
      obtain ⟨m, rfl⟩ : ∃ m, n = m + 1 := by
        cases n
        · simp at hlen
        · exact ⟨_, rfl⟩
      rw [show renderFields (f :: f2 :: fs2) = renderField f ++ ',' :: renderFields (f2 :: fs2)
        from rfl]
      rw [show (renderField f ++ ',' :: renderFields (f2 :: fs2)) ++ '\r' :: '\n' :: rest
            = renderField f ++ ',' :: (renderFields (f2 :: fs2) ++ '\r' :: '\n' :: rest) from by
        simp]
      have hpf := parseField_render f (',' :: (renderFields (f2 :: fs2) ++ '\r' :: '\n' :: rest))
        ⟨',', _, rfl, by simp⟩
      have hrec := ih m rest (by simp) (by simpa using Nat.succ_le_succ_iff.mp hlen)
      rw [parseRowFuel.eq_def]
      simp [hpf, hrec]

theorem parseRowsFuel_render : ∀ (rows : List (List String)) (n : Nat),
    (∀ r ∈ rows, r.length = 11) → rows.length + 11 ≤ n →
    parseRowsFuel n (renderRows rows) = rows.map (fun r => r.map String.data) := by
  intro rows
  induction rows with
  | nil =>
    intro n _ _
    cases n with
    | zero => rfl
    | succ m => simp [renderRows, parseRowsFuel]
  | cons r rs ih =>
    intro n hall hn
    obtain ⟨m, rfl⟩ : ∃ m, n = m + 1 := by
      cases n
      · simp at hn
      · exact ⟨_, rfl⟩
    have hr : r.length = 11 := hall r (by simp)
    have hrER : renderRows (r :: rs) = renderFields r ++ '\r' :: '\n' :: renderRows rs := by
      simp [renderRows, renderRow]
    have hrow := parseRowFuel_render r (m + 1) (renderRows rs)
      (by
        intro he
        rw [he] at hr
        simp at hr)
      (by omega)
    have hrecur := ih m (fun q hq => hall q (by simp [hq])) (by simp at hn; omega)
    rw [hrER, parseRowsFuel.eq_def]
    have hne : (renderFields r ++ '\r' :: '\n' :: renderRows rs).isEmpty = false := by
      cases hf : renderFields r <;> simp [hf]
    simp [hne, hrow, hrecur]

theorem renderFields_length_lb : ∀ fields : List String,
    fields.length ≤ (renderFields fields).length + 1 := by
  intro fields
  induction fields with
  | nil => simp [renderFields]
  | cons f fs ih =>
    cases fs with
    | nil => simp [renderFields]
    | cons f2 fs2 =>
      rw [show renderFields (f :: f2 :: fs2)
            = renderField f ++ ',' :: renderFields (f2 :: fs2) from rfl]
      simp only [List.length_cons, List.length_append]
      simp only [List.length_cons] at ih
      omega

theorem renderRows_length_lb : ∀ rows : List (List String),
    (∀ r ∈ rows, r.length = 11) → 12 * rows.length ≤ (renderRows rows).length := by
  intro rows
  induction rows with
  | nil => intro _; simp [renderRows]
  | cons r rs ih =>
    intro hall
    have hr : r.length = 11 := hall r (by simp)
    have hfields : 10 ≤ (renderFields r).length := by
      have := renderFields_length_lb r
      omega
    have hrest := ih (fun q hq => hall q (by simp [hq]))
    have hsplit : (renderRows (r :: rs)).length
        = (renderFields r).length + 2 + (renderRows rs).length := by
      simp [renderRows, renderRow]
      omega
    simp only [List.length_cons]
    omega

theorem map_mk_data (r : List String) : (r.map String.data).map String.mk = r := by
  induction r with
  | nil => rfl
  | cons s r ih => simp [ih, string_mk_data]

theorem csvParse_renderRows (rows : List (List String))
    (hall : ∀ r ∈ rows, r.length = 11) (hne : 1 ≤ rows.length) :
    csvParse (String.mk (renderRows rows)) = rows := by
  unfold csvParse
  rw [show (String.mk (renderRows rows)).data = renderRows rows from rfl]
  rw [parseRowsFuel_render rows _ hall
    (by
      have := renderRows_length_lb rows hall
      omega)]
  rw [show (rows.map (fun r => r.map String.data)).map (fun r => r.map String.mk)
        = rows.map (fun r => (r.map String.data).map String.mk) from by
    rw [List.map_map]
    rfl]
  rw [show rows.map (fun r => (r.map String.data).map String.mk) = rows.map id from by
    apply List.map_congr_left
    intro a _
    rw [map_mk_data]
    rfl]
  simp

theorem insertPR_map_fst_mem : ∀ (groups : List (String × List PullRequest)) (pr : PullRequest),
    pr.repoName ∈ groups.map Prod.fst →
    (insertPR groups pr).map Prod.fst = groups.map Prod.fst := by
  intro groups
  induction groups with
  | nil => intro pr h; simp at h
  | cons g rest ih =>
    intro pr h
    rcases g with ⟨n, ps⟩
    by_cases hn : n = pr.repoName
    · simp [insertPR, hn]
    · have hmem : pr.repoName ∈ rest.map Prod.fst := by
        rcases List.mem_cons.mp h with h1 | h1
        · exact absurd h1.symm hn
        · exact h1
      simp [insertPR, hn, ih pr hmem]

theorem insertPR_map_fst_not_mem : ∀ (groups : List (String × List PullRequest))
    (pr : PullRequest), pr.repoName ∉ groups.map Prod.fst →
    (insertPR groups pr).map Prod.fst = groups.map Prod.fst ++ [pr.repoName] := by
  intro groups
  induction groups with
  | nil => intro pr _; simp [insertPR]
  | cons g rest ih =>
    intro pr h
    rcases g with ⟨n, ps⟩
    simp only [List.map_cons, List.mem_cons] at h
    push_neg at h
    have hn : ¬ n = pr.repoName := fun he => h.1 he.symm
    simp [insertPR, hn, ih pr h.2]

theorem insertPR_nodup (groups : List (String × List PullRequest)) (pr : PullRequest)
    (h : (groups.map Prod.fst).Nodup) : ((insertPR groups pr).map Prod.fst).Nodup := by
  by_cases hmem : pr.repoName ∈ groups.map Prod.fst
  · rw [insertPR_map_fst_mem groups pr hmem]
    exact h
  · rw [insertPR_map_fst_not_mem groups pr hmem]
    simp [List.nodup_append, h, hmem]

theorem foldl_insertPR_nodup : ∀ (prs : List PullRequest)
    (groups : List (String × List PullRequest)), (groups.map Prod.fst).Nodup →
    (((prs.foldl insertPR groups).map Prod.fst)).Nodup := by
  intro prs
  induction prs with
  | nil => intro groups h; exact h
  | cons pr prs ih =>
    intro groups h
    rw [List.foldl_cons]
    exact ih (insertPR groups pr) (insertPR_nodup groups pr h)

theorem groupByRepo_nodup (prs : List PullRequest) :
    ((groupByRepo prs).map Prod.fst).Nodup :=
  foldl_insertPR_nodup prs [] (by simp)

theorem insertPR_members (groups : List (String × List PullRequest)) (pr : PullRequest)
    (h : ∀ g ∈ groups, ∀ q ∈ g.2, q.repoName = g.1) :
    ∀ g ∈ insertPR groups pr, ∀ q ∈ g.2, q.repoName = g.1 := by
  induction groups with
  | nil =>
    intro g hg q hq
    simp only [insertPR, List.mem_singleton] at hg
    subst hg
    simp only [List.mem_singleton] at hq
    subst hq
    rfl
  | cons g0 rest ih =>
    rcases g0 with ⟨n, ps⟩
    intro g hg q hq
    by_cases hn : n = pr.repoName
    · simp only [insertPR, if_pos hn, List.mem_cons] at hg
      rcases hg with hg | hg
      · subst hg
        simp only at hq
        rcases List.mem_append.mp hq with h1 | h1
        · exact h (n, ps) (by simp) q h1
        · simp only [List.mem_singleton] at h1
          subst h1
          exact hn.symm
      · exact h g (by simp [hg]) q hq
    · simp only [insertPR, if_neg hn, List.mem_cons] at hg
      rcases hg with hg | hg
      · subst hg
        exact h (n, ps) (by simp) q hq
      · exact ih (fun g2 hg2 => h g2 (by simp [hg2])) g hg q hq

theorem insertPR_join_perm (groups : List (String × List PullRequest)) (pr : PullRequest) :
    ((insertPR groups pr).map Prod.snd).flatten.Perm
      ((groups.map Prod.snd).flatten ++ [pr]) := by
  induction groups with
  | nil => simp [insertPR]
  | cons g0 rest ih =>
    rcases g0 with ⟨n, ps⟩
    by_cases hn : n = pr.repoName
    · simp only [insertPR, if_pos hn, List.map_cons, List.flatten_cons]
      rw [show (ps ++ [pr]) ++ (rest.map Prod.snd).flatten
            = ps ++ ([pr] ++ (rest.map Prod.snd).flatten) from by simp]
      rw [show (ps ++ (rest.map Prod.snd).flatten) ++ [pr]
            = ps ++ ((rest.map Prod.snd).flatten ++ [pr]) from by simp]
      exact List.Perm.append_left ps List.perm_append_comm
    · simp only [insertPR, if_neg hn, List.map_cons, List.flatten_cons]
      rw [show (ps ++ (rest.map Prod.snd).flatten) ++ [pr]
            = ps ++ ((rest.map Prod.snd).flatten ++ [pr]) from by simp]
      exact List.Perm.append_left ps ih

theorem foldl_insertPR_join_perm : ∀ (prs : List PullRequest)
    (groups : List (String × List PullRequest)),
    ((prs.foldl insertPR groups).map Prod.snd).flatten.Perm
      ((groups.map Prod.snd).flatten ++ prs) := by
  intro prs
  induction prs with
  | nil => intro groups; simp
  | cons pr prs ih =>
    intro groups
    rw [List.foldl_cons]
    refine (ih (insertPR groups pr)).trans ?_
    refine (List.Perm.append_right prs (insertPR_join_perm groups pr)).trans ?_
    rw [List.append_assoc]
    simp

theorem groupByRepo_join_perm (prs : List PullRequest) :
    (((groupByRepo prs).map Prod.snd).flatten).Perm prs := by
  have := foldl_insertPR_join_perm prs []
  simpa [groupByRepo] using this

theorem map_dateSort_join_perm (gs : List (String × List PullRequest)) :
    ((gs.map (fun g => ((g.1, sortByDateDesc g.2) : String × List PullRequest))).map
      Prod.snd).flatten.Perm ((gs.map Prod.snd).flatten) := by
  induction gs with
  | nil => simp
  | cons g rest ih =>
    simp only [List.map_cons, List.flatten_cons]
    exact List.Perm.append (List.perm_insertionSort dateRel g.2) ih

theorem partition_foldl (f : String → Bool) : ∀ (repos arch rem : List String),
    repos.foldl
      (fun (acc : List String × List String) repo =>
        if f repo then (acc.1 ++ [repo], acc.2) else (acc.1, acc.2 ++ [repo]))
      (arch, rem)
      = (arch ++ repos.filter f, rem ++ repos.filter (fun r => !f r)) := by
  intro repos
  induction repos with
  | nil => intro arch rem; simp
  | cons r repos ih =>
    intro arch rem
    rw [List.foldl_cons]
    by_cases hf : f r = true
    · rw [if_pos hf, ih (arch ++ [r]) rem]
      simp [List.filter_cons, hf]
    · have hf2 : f r = false := by
        cases hx : f r
        · rfl
        · exact absurd hx hf
      rw [if_neg hf, ih arch (rem ++ [r])]
      simp [List.filter_cons, hf2]

theorem contextState_target (c : CheckContext) (x : Option String) :
    contextState { c with targetUrl := x } = contextState c := rfl

theorem bucketFold_map_target (l : List CheckContext) (f : Option String → Option String) :
    bucketFold (l.map (fun c => { c with targetUrl := f c.targetUrl })) = bucketFold l := by
  unfold bucketFold
  rw [List.foldl_map]
  rfl

theorem isEmpty_map_target (l : List CheckContext) (f : Option String → Option String) :
    (l.map (fun c => { c with targetUrl := f c.targetUrl })).isEmpty = l.isEmpty := by
  cases l <;> rfl

theorem get_build_status_setTargetUrls (pr : PullRequest)
    (f : Option String → Option String) :
    get_build_status (setTargetUrls f pr) = get_build_status pr := by
  unfold get_build_status
  have hurl : checksUrl (setTargetUrls f pr) = checksUrl pr := rfl
  rw [hurl]
  have hst : (setTargetUrls f pr).statusCheckRollup
      = pr.statusCheckRollup.map
          (fun l => l.map (fun c => { c with targetUrl := f c.targetUrl })) := rfl
  rw [hst]
  cases pr.statusCheckRollup with
  | none => rfl
  | some rollup =>
    simp only [Option.map_some']
    simp only [statusFromRollup]
    rw [isEmpty_map_target rollup f, bucketFold_map_target rollup f]

theorem get_build_status_url (pr : PullRequest) :
    (get_build_status pr).2 = checksUrl pr := rfl

theorem sortPRs_perm (prs : List PullRequest) : (sortPRs prs).Perm prs :=
  List.perm_insertionSort keyRel prs

theorem sortPRs_sorted (prs : List PullRequest) :
    (sortPRs prs).Pairwise keyRel := by
  haveI : IsTotal PullRequest keyRel := ⟨keyLe_total⟩
  haveI : IsTrans PullRequest keyRel := ⟨keyLe_trans⟩
  exact List.sorted_insertionSort keyRel prs

theorem csvRows_len_all (prs : List PullRequest) :
    ∀ r ∈ csvRows prs, r.length = 11 := by
  intro r hr
  rcases List.mem_cons.mp hr with h | h
  · subst h
    rfl
  · rcases List.mem_map.mp h with ⟨pr, _, rfl⟩
    rfl

theorem asciidocGroups_sorted (prs : List PullRequest) :
    (asciidocGroups prs).Pairwise (fun g1 g2 => pyStrLt g1.1 g2.1 = true) := by
  haveI : IsTotal (String × List PullRequest) groupRel := ⟨groupLe_total⟩
  haveI : IsTrans (String × List PullRequest) groupRel := ⟨groupLe_trans⟩
  have hsorted : (List.insertionSort groupRel (groupByRepo prs)).Pairwise groupRel :=
    List.sorted_insertionSort groupRel (groupByRepo prs)
  have hperm := List.perm_insertionSort groupRel (groupByRepo prs)
  have hnodup : ((List.insertionSort groupRel (groupByRepo prs)).map Prod.fst).Nodup :=
    (List.Perm.nodup_iff (List.Perm.map Prod.fst hperm)).mpr (groupByRepo_nodup prs)
  have hne : (List.insertionSort groupRel (groupByRepo prs)).Pairwise
      (fun g1 g2 => g1.1 ≠ g2.1) := by
    have := (@List.pairwise_map (String × List PullRequest) String Prod.fst _ _).mp hnodup
    exact this
  have hlt : (List.insertionSort groupRel (groupByRepo prs)).Pairwise
      (fun g1 g2 => pyStrLt g1.1 g2.1 = true) := by
    refine (hsorted.and hne).imp ?_
    rintro a b ⟨hle, hne2⟩
    rcases Bool.or_eq_true _ _ |>.mp hle with h | h
    · exact h
    · exact absurd (by simpa [beq_iff_eq] using h) hne2
  unfold asciidocGroups
  exact (@List.pairwise_map (String × List PullRequest) (String × List PullRequest)
    (fun g => ((g.1, sortByDateDesc g.2) : String × List PullRequest)) _ _).mpr hlt

theorem asciidocGroups_dates_sorted (prs : List PullRequest) :
    ∀ g ∈ asciidocGroups prs,
      g.2.Pairwise (fun a b => pyStrLt a.createdAt b.createdAt = false) := by
  intro g hg
  rcases List.mem_map.mp hg with ⟨g0, _, rfl⟩
  haveI : IsTotal PullRequest dateRel := ⟨dateDescLe_total⟩
  haveI : IsTrans PullRequest dateRel := ⟨dateDescLe_trans⟩
  have hsorted : (sortByDateDesc g0.2).Pairwise dateRel :=
    List.sorted_insertionSort dateRel g0.2
  refine hsorted.imp ?_
  intro a b h
  unfold dateRel dateDescLe at h
  simpa [Bool.not_eq_true'] using h

theorem asciidocGroups_members (prs : List PullRequest) :
    ∀ g ∈ asciidocGroups prs, ∀ pr ∈ g.2, pr.repoName = g.1 := by
  intro g hg pr hpr
  rcases List.mem_map.mp hg with ⟨g0, hg0, rfl⟩
  have hg0mem : g0 ∈ groupByRepo prs :=
    (List.Perm.mem_iff (List.perm_insertionSort groupRel (groupByRepo prs))).mp hg0
  have hbase : ∀ g2 ∈ groupByRepo prs, ∀ q ∈ g2.2, q.repoName = g2.1 := by
    have hstep : ∀ (l : List PullRequest) (groups : List (String × List PullRequest)),
        (∀ g2 ∈ groups, ∀ q ∈ g2.2, q.repoName = g2.1) →
        ∀ g2 ∈ l.foldl insertPR groups, ∀ q ∈ g2.2, q.repoName = g2.1 := by
      intro l
      induction l with
      | nil => intro groups h; exact h
      | cons pr2 l2 ih =>
        intro groups h
        rw [List.foldl_cons]
        exact ih (insertPR groups pr2) (insertPR_members groups pr2 h)
    exact hstep prs [] (by simp)
  have hmem2 : pr ∈ g0.2 :=
    (List.Perm.mem_iff (List.perm_insertionSort dateRel g0.2)).mp hpr
  exact hbase g0 hg0mem pr hmem2

theorem asciidocGroups_join_perm (prs : List PullRequest) :
    ((asciidocGroups prs).map Prod.snd).flatten.Perm prs := by
  unfold asciidocGroups
  refine (map_dateSort_join_perm (List.insertionSort groupRel (groupByRepo prs))).trans ?_
  refine (List.Perm.flatten (List.Perm.map Prod.snd
    (List.perm_insertionSort groupRel (groupByRepo prs)))).trans ?_
  exact groupByRepo_join_perm prs

/-- C1: for every pull-request record, the status reducer returns FAILURE
when at least one check-run state string is failure-like, else PENDING
when at least one is pending-like, else SUCCESS when at least one is
success-like, else UNKNOWN (also for an absent or empty check-run list);
other state strings feed no bucket.  Stated as agreement of the code
embedding with the definition written from the specification words. -/
theorem build_status_matches_spec_buckets (pr : PullRequest) :
    (get_build_status pr).1
      = specAggregateStatus (pr.statusCheckRollup.map (fun l => l.map contextState)) := by
  show statusFromRollup pr.statusCheckRollup = _
  cases pr.statusCheckRollup with
  | none => rfl
  | some rollup =>
    cases rollup with
    | nil => rfl
    | cons c cs =>
      simp only [statusFromRollup, Option.map_some', List.map_cons, List.isEmpty_cons,
        specAggregateStatus]
      rw [bucketFold_spec]
      simp [List.any_map, Function.comp]

/-- C2 counterexample: a missing CLI binary in the pull-request-listing
path is not recovered; get_prs_for_repo surfaces the FileNotFoundError
instead of returning the empty sequence. -/
theorem pr_listing_missing_cli_not_recovered :
    get_prs_for_repo "maven" RunResult.fileNotFound (fun _ => some [])
        = PyResult.raised "FileNotFoundError"
      ∧ get_prs_for_repo "maven" RunResult.fileNotFound (fun _ => some [])
          ≠ PyResult.ok [] :=
  ⟨rfl, by decide⟩

/-- C2 (amended): a non-zero exit of the CLI is recovered in both paths
(empty list, not-archived); a missing CLI binary is recovered only in the
archival-check path, while the listing path raises FileNotFoundError. -/
theorem subprocess_failure_recovery_alignment (repo : String)
    (parseJson : String → Option (List PullRequest))
    (parseArchived : String → Option Bool) :
    get_prs_for_repo repo RunResult.calledProcessError parseJson = PyResult.ok []
      ∧ gh_check_repo_archived RunResult.calledProcessError parseArchived = false
      ∧ gh_check_repo_archived RunResult.fileNotFound parseArchived = false
      ∧ get_prs_for_repo repo RunResult.fileNotFound parseJson
          = PyResult.raised "FileNotFoundError" :=
  ⟨rfl, rfl, rfl, rfl⟩

/-- C3: the removal pattern for repository maven-site also matches (and
remove_repo_from_yaml therefore deletes) the YAML line of the different
repository maven-site-plugin, although both names sit in the static
repository list; the regex word boundary holds between the letter e and
the hyphen, so it does not protect hyphen-extended repository names. -/
theorem yaml_removal_deletes_hyphen_extended_repo :
    "maven-site" ∈ MAVEN_REPOS
      ∧ "maven-site-plugin" ∈ MAVEN_REPOS
      ∧ lineMatches "maven-site"
          "  - github:repository::https://github.com/apache/maven-site-plugin" = true
      ∧ remove_repo_from_yaml "maven-site"
          ["  - github:repository::https://github.com/apache/maven-site-plugin"]
          = some [] :=
  ⟨by decide, by decide, by decide, by decide⟩

/-- C4 counterexample: export_to_csv does not leave the caller list
unchanged; on a two-element list given in descending key order the
caller list ends up reordered (Python list.sort mutates in place). -/
theorem csv_serializer_mutates_caller_list :
    (export_to_csv [samplePR "maven-wagon" 7 "2024-01-02T03:04:05Z",
        samplePR "maven-jxr" 3 "2024-01-02T03:04:05Z"]).2
      ≠ [samplePR "maven-wagon" 7 "2024-01-02T03:04:05Z",
         samplePR "maven-jxr" 3 "2024-01-02T03:04:05Z"] := by
  decide

/-- C4 (amended): export_to_asciidoc leaves the caller list unchanged;
export_to_csv leaves the multiset of records unchanged but reorders the
caller list in place into ascending (repository, number) order. -/
theorem serializer_frame_effects (prs : List PullRequest) (title now : String) :
    (export_to_asciidoc prs title now).2 = prs
      ∧ (export_to_csv prs).2.Perm prs
      ∧ (export_to_csv prs).2 = sortPRs prs :=
  ⟨rfl, sortPRs_perm prs, rfl⟩

/-- C5: when remove_repo_from_yaml rewrites the file, at least one line
matched the removal pattern, and the output is exactly the non-matching
lines, verbatim and in their original order (a sublist of the input). -/
theorem yaml_rewrite_preserves_nonmatching_lines (repo : String) (lines out : List String)
    (h : remove_repo_from_yaml repo lines = some out) :
    (∃ ln ∈ lines, lineMatches repo ln = true)
      ∧ out = lines.filter (fun ln => !lineMatches repo ln)
      ∧ out.Sublist lines := by
  simp only [remove_repo_from_yaml] at h
  by_cases hlen : (lines.filter (fun ln => !lineMatches repo ln)).length = lines.length
  · rw [if_pos hlen] at h
    cases h
  · rw [if_neg hlen] at h
    have hout : out = lines.filter (fun ln => !lineMatches repo ln) := (Option.some.inj h).symm
    refine ⟨?_, hout, hout ▸ List.filter_sublist lines⟩
    by_contra hno
    push_neg at hno
    apply hlen
    rw [List.filter_eq_self.mpr]
    intro a ha
    have := hno a ha
    simp only [Bool.not_eq_true] at this
    simp [this]

/-- C5 witness: a concrete rewrite keeping the non-matching line. -/
theorem yaml_rewrite_preserves_nonmatching_lines_witness :
    remove_repo_from_yaml "maven-wagon"
        ["- github:repository::https://github.com/apache/maven-wagon", "repositories:"]
        = some ["repositories:"]
      ∧ ((∃ ln ∈ ["- github:repository::https://github.com/apache/maven-wagon",
            "repositories:"], lineMatches "maven-wagon" ln = true)
          ∧ ["repositories:"]
              = ["- github:repository::https://github.com/apache/maven-wagon",
                 "repositories:"].filter (fun ln => !lineMatches "maven-wagon" ln)
          ∧ List.Sublist ["repositories:"]
              ["- github:repository::https://github.com/apache/maven-wagon",
               "repositories:"]) :=
  ⟨by decide, yaml_rewrite_preserves_nonmatching_lines "maven-wagon"
    ["- github:repository::https://github.com/apache/maven-wagon", "repositories:"]
    ["repositories:"] (by decide)⟩

/-- C6: the csv serializer emits the header row plus one data row per
record; re-parsing the produced text recovers exactly those rows; the
data rows follow the sorted order, whose (repository, number) pairs are
a permutation of the input pairs and pairwise ascending; the first two
cells of a data row are the repository name and the number. -/
theorem csv_roundtrip_sorted_pairs (prs : List PullRequest) :
    csvParse (export_to_csv prs).1 = csvRows prs
      ∧ (csvRows prs).length = prs.length + 1
      ∧ csvRows prs = csvHeader :: (sortPRs prs).map dataRow
      ∧ ((sortPRs prs).map (fun pr => (pr.repoName, pr.number))).Perm
          (prs.map (fun pr => (pr.repoName, pr.number)))
      ∧ (sortPRs prs).Pairwise keyRel
      ∧ ∀ pr : PullRequest, (dataRow pr).take 2 = [pr.repoName, toString pr.number] := by
  refine ⟨?_, ?_, rfl, List.Perm.map _ (sortPRs_perm prs), sortPRs_sorted prs,
    fun pr => rfl⟩
  · show csvParse (String.mk (renderRows (csvRows prs))) = csvRows prs
    exact csvParse_renderRows (csvRows prs) (csvRows_len_all prs) (by simp [csvRows])
  · have hlen : (sortPRs prs).length = prs.length := (sortPRs_perm prs).length_eq
    simp [csvRows, hlen]

/-- C7: the AsciiDoc group sequence is ordered by repository name
strictly ascending; inside every group the rows are ordered by creation
timestamp descending; every record of a group belongs to that group
repository; the groups together hold exactly the input records; and the
emitted text is generated from that group sequence. -/
theorem asciidoc_grouping_and_ordering (prs : List PullRequest) (title now : String) :
    (asciidocGroups prs).Pairwise (fun g1 g2 => pyStrLt g1.1 g2.1 = true)
      ∧ (∀ g ∈ asciidocGroups prs,
          g.2.Pairwise (fun a b => pyStrLt a.createdAt b.createdAt = false))
      ∧ (∀ g ∈ asciidocGroups prs, ∀ pr ∈ g.2, pr.repoName = g.1)
      ∧ ((asciidocGroups prs).map Prod.snd).flatten.Perm prs
      ∧ (export_to_asciidoc prs title now).1 = adocDoc title now (asciidocGroups prs) :=
  ⟨asciidocGroups_sorted prs, asciidocGroups_dates_sorted prs,
   asciidocGroups_members prs, asciidocGroups_join_perm prs, rfl⟩

/-- C8: the URL returned by the status reducer is exactly the synthesized
checks-page URL for every verdict, and the whole reducer output is
unchanged under any rewriting of the per-check target URLs. -/
theorem checks_url_constant_for_all_verdicts (pr : PullRequest)
    (f : Option String → Option String) :
    (get_build_status pr).2
        = "https://github.com/apache/" ++ pr.repoName ++ "/pull/"
            ++ toString pr.number ++ "/checks"
      ∧ get_build_status (setTargetUrls f pr) = get_build_status pr :=
  ⟨rfl, get_build_status_setTargetUrls pr f⟩

/-- C9: when no line matches the removal pattern, remove_repo_from_yaml
performs no write and reports False (the none result), leaving the file
unchanged. -/
theorem yaml_removal_idempotent_when_absent (repo : String) (lines : List String)
    (h : ∀ ln ∈ lines, lineMatches repo ln = false) :
    remove_repo_from_yaml repo lines = none := by
  have hfull : lines.filter (fun ln => !lineMatches repo ln) = lines :=
    List.filter_eq_self.mpr (fun a ha => by simp [h a ha])
  simp only [remove_repo_from_yaml]
  rw [hfull]
  simp

/-- C9 witness: a concrete file with no matching line is left alone. -/
theorem yaml_removal_idempotent_when_absent_witness :
    (∀ ln ∈ ["repositories:", "  - other: thing"],
        lineMatches "maven-wagon" ln = false)
      ∧ remove_repo_from_yaml "maven-wagon" ["repositories:", "  - other: thing"] = none :=
  ⟨by decide, yaml_removal_idempotent_when_absent "maven-wagon"
    ["repositories:", "  - other: thing"] (by decide)⟩

/-- C10: the repository list returned by filter_and_cleanup_archived is
exactly the input filtered to the repositories whose archived check came
back false, in input order (a sublist of the input). -/
theorem archival_filter_returns_unarchived_subsequence (env : String → RunResult)
    (parseArchived : String → Option Bool) (repos yaml : List String) :
    (filter_and_cleanup_archived env parseArchived repos yaml).1
        = repos.filter (fun r => !gh_check_repo_archived (env r) parseArchived)
      ∧ ((filter_and_cleanup_archived env parseArchived repos yaml).1).Sublist repos := by
  have heq : (filter_and_cleanup_archived env parseArchived repos yaml).1
      = repos.filter (fun r => !gh_check_repo_archived (env r) parseArchived) := by
    simp only [filter_and_cleanup_archived]
    rw [partition_foldl (fun r => gh_check_repo_archived (env r) parseArchived) repos [] []]
    simp
  exact ⟨heq, heq ▸ List.filter_sublist repos⟩
